import Mathlib

/-!
Verification of the Gopher-style quality tagger
(`pretrain_data/filters/src/ai2_llm_filters/taggers/gopher.py`).

Python text is modelled as `String` / `List Char` (one `Char` per code
point), numeric results as `ℚ` (the metric arithmetic is exact rational
arithmetic on integer counts; Python's float division is modelled by
exact division).  Fallible Python operations (`statistics.median` on an
empty list, `/` with a zero denominator, `max` over an empty sequence)
are modelled with `Except`, and the `try/except` of `get_attributes` by
matching on that `Except`, so that the partially populated attribute
record at the failure point is returned, together with the logged
excerpt `text[:200]`.
-/

/-- Python `str.split()` helper: accumulates the current word (reversed)
and splits on whitespace, dropping empty tokens. -/
def pySplitAux : List Char → List Char → List (List Char)
  | [], acc => if acc = [] then [] else [acc.reverse]
  | c :: rest, acc =>
    if c.isWhitespace then
      if acc = [] then pySplitAux rest [] else acc.reverse :: pySplitAux rest []
    else pySplitAux rest (c :: acc)

/-- Python `text.split()`: split on runs of whitespace, no empty tokens. -/
def pySplit (l : List Char) : List (List Char) := pySplitAux l []

/-- Python `text.split("\n")`: split on each newline, keeping empty
pieces (so a trailing newline yields a final empty line, and the empty
string yields one empty line). -/
def pyLines : List Char → List (List Char)
  | [] => [[]]
  | c :: rest =>
    if c = '\n' then [] :: pyLines rest
    else
      match pyLines rest with
      | [] => [[c]]
      | w :: ws => (c :: w) :: ws

/-- Python `statistics.median` over the (numeric) list: sort, take the middle
element (odd length) or the mean of the two middle elements (even
length); raises on an empty list. -/
def pyMedian (xs : List Nat) : Except Unit ℚ :=
  if xs = [] then .error ()
  else
    let s := List.insertionSort (· ≤ ·) xs
    let k := xs.length
    if k % 2 = 1 then .ok (s.getD (k / 2) 0 : ℚ)
    else .ok (((s.getD (k / 2 - 1) 0 : ℚ) + (s.getD (k / 2) 0 : ℚ)) / 2)

/-- Python `/`: raises `ZeroDivisionError` on a zero denominator. -/
def safeDiv (a b : ℚ) : Except Unit ℚ := if b = 0 then .error () else .ok (a / b)

/-- `SYMBOLS = {"#", "…"}`; each symbol is a single character, so the
substring test `s in word` is character membership. -/
def SYMBOLS : List Char := ['#', '…']

/-- Python `any(s in word for s in SYMBOLS)`. -/
def hasSymbol (w : List Char) : Bool := w.any (fun c => SYMBOLS.contains c)

/-- Python `any(c.isalpha() for c in word)` (alphabetic characters modelled by
`Char.isAlpha`). -/
def hasAlpha (w : List Char) : Bool := w.any (fun c => c.isAlpha)

/-- The set `REQUIRED_ENGLISH_WORDS = {"the", "be", "to", "of", "and", "that",
"have", "with"}`. -/
def REQUIRED_ENGLISH_WORDS : List (List Char) :=
  [['t', 'h', 'e'], ['b', 'e'], ['t', 'o'], ['o', 'f'], ['a', 'n', 'd'],
   ['t', 'h', 'a', 't'], ['h', 'a', 'v', 'e'], ['w', 'i', 't', 'h']]

/-- Python `word in REQUIRED_ENGLISH_WORDS` (exact, case-sensitive match). -/
def isRequiredWord (w : List Char) : Bool := REQUIRED_ENGLISH_WORDS.contains w

/-- The set `BULLET_POINTS = {"*", "-"}`. -/
def BULLET_POINTS : List Char := ['*', '-']

/-- Python `any(line.startswith(s) for s in BULLET_POINTS)`; each bullet is a
single character, so `startswith` is a head test. -/
def startsWithBullet (line : List Char) : Bool :=
  BULLET_POINTS.any (fun s => line.head? == some s)

/-- Python `line.endswith("…")`: a last-character test. -/
def endsWithEllipsis (line : List Char) : Bool := line.getLast? == some '…'

/-- Source `find_ngrams(words, n) = list(zip(*[words[i:] for i in range(n)]))`:
all contiguous `n`-word windows (empty when `n = 0` or `n` exceeds the
word count, exactly as `zip` of the shifted lists is). -/
def find_ngrams (words : List (List Char)) (n : Nat) : List (List (List Char)) :=
  if n = 0 ∨ words.length < n then []
  else (List.range (words.length + 1 - n)).map (fun i => (words.drop i).take n)

/-- One step of `occurrence_counts`: increment the count of `x`,
appending a fresh entry `(x, 1)` if `x` is not yet a key.  Models one
iteration of `counts[line] += 1` on a `defaultdict(int)`, whose
iteration order is first-insertion order. -/
def bump {α : Type} [DecidableEq α] : List (α × Nat) → α → List (α × Nat)
  | [], x => [(x, 1)]
  | (y, c) :: rest, x =>
    if x = y then (y, c + 1) :: rest else (y, c) :: bump rest x

/-- Source `occurrence_counts(objects)`: the insertion-ordered association list
of `(object, occurrence count)`. -/
def occurrence_counts {α : Type} [DecidableEq α] (objects : List α) : List (α × Nat) :=
  objects.foldl bump []

/-- Python `max(items, key=lambda x: x[1])`: the first item attaining
the maximal second component (Python's `max` keeps the earliest maximal
element); `none` on an empty sequence (where Python raises). -/
def pyMaxBySnd {α : Type} : List (α × Nat) → Option (α × Nat)
  | [] => none
  | x :: xs => some (xs.foldl (fun best y => if best.2 < y.2 then y else best) x)

/-- Python `sum(len(word) for word in words)` — the word-derived character
count (`character_count` local variable inside the `try` block). -/
def wordsCharCount (words : List (List Char)) : Nat := (words.map List.length).sum

/-- Python `sum(len(s) for s in ng)`: characters of one n-gram (no separators). -/
def ngramCharCount (ng : List (List Char)) : Nat := (ng.map List.length).sum

/-- Loop body for `n in range(2, 5)`: the value appended for `n`,
with the division modelled as fallible.  `value` stays `0.0` when there
are no n-grams; otherwise the characters of the most common n-gram are
divided by the word-derived character count. -/
def mostCommonValue (words : List (List Char)) (character_count : Nat) (n : Nat) :
    Except Unit ℚ :=
  let ngrams := find_ngrams words n
  if ngrams = [] then .ok 0
  else
    match pyMaxBySnd (occurrence_counts ngrams) with
    | none => .error ()
    | some mc => safeDiv (ngramCharCount mc.1 : ℚ) (character_count : ℚ)

/-- Loop body for `n in range(5, 11)`: the value appended for `n`.
`value` stays `0.0` when there are no n-grams; otherwise characters of
duplicated n-grams (count exceeding 1), weighted by occurrence count, divided by
the characters over all n-gram windows. -/
def duplicateValue (words : List (List Char)) (n : Nat) : Except Unit ℚ :=
  let ngrams := find_ngrams words n
  if ngrams = [] then .ok 0
  else
    let ngram_counts := occurrence_counts ngrams
    let ng_char_count := (ngrams.map ngramCharCount).sum
    safeDiv
      (((ngram_counts.filter (fun p => 1 < p.2)).map (fun p => (ngramCharCount p.1 * p.2 : ℕ))).sum : ℚ)
      (ng_char_count : ℚ)

/-- Runs one of the two `for n in range(...)` loops: each iteration
appends `(n, value)`; a raised exception surfaces the list accumulated
so far (which the `except` handler then leaves in the record). -/
def metricLoop (f : Nat → Except Unit ℚ) :
    List Nat → List (Nat × ℚ) → Except (List (Nat × ℚ)) (List (Nat × ℚ))
  | [], acc => .ok acc
  | n :: ns, acc =>
    match f n with
    | .error _ => .error acc
    | .ok v => metricLoop f ns (acc ++ [(n, v)])

/-- The `GopherAttributes` dataclass.  All numeric defaults are zero
(`median_word_length`'s Python default is `False`, which equals `0`
numerically).  The extra field `fraction__of_characters_in_duplicate_lines`
(note the double underscore) models the *dynamically created* instance
attribute that the misspelled assignment
`attrs.fraction__of_characters_in_duplicate_lines = ...` in the source
creates: `none` when never assigned; the declared dataclass field
`fraction_of_characters_in_duplicate_lines` is untouched by it. -/
structure GopherAttributes where
  fraction_of_characters_in_most_common_ngram : List (Nat × ℚ)
  fraction_of_characters_in_duplicate_ngrams : List (Nat × ℚ)
  character_count : Nat := 0
  word_count : Nat := 0
  median_word_length : ℚ := 0
  symbol_to_word_ratio : ℚ := 0
  fraction_of_words_with_alpha_character : ℚ := 0
  required_word_count : Nat := 0
  fraction_of_lines_starting_with_bullet_point : ℚ := 0
  fraction_of_lines_ending_with_ellipsis : ℚ := 0
  fraction_of_duplicate_lines : ℚ := 0
  fraction_of_characters_in_duplicate_lines : ℚ := 0
  fraction__of_characters_in_duplicate_lines : Option ℚ := none
  deriving Repr, DecidableEq

/-- The body of the `try:` block of `get_attributes`, statement by
statement in source order.  `.error a` means an exception was raised
with the record populated up to `a`; `.ok a` means the block completed.
The final (misspelled) assignment goes to the dynamic attribute
`fraction__of_characters_in_duplicate_lines`, not the declared field. -/
def tryBody (text : List Char) (attrs0 : GopherAttributes) :
    Except GopherAttributes GopherAttributes :=
  let words := pySplit text
  let word_count := words.length
  let character_count := wordsCharCount words
  let a1 := { attrs0 with word_count := word_count }
  match pyMedian (words.map List.length) with
  | .error _ => .error a1
  | .ok m =>
  let a2 := { a1 with median_word_length := m }
  match safeDiv (words.countP hasSymbol : ℚ) (word_count : ℚ) with
  | .error _ => .error a2
  | .ok r1 =>
  let a3 := { a2 with symbol_to_word_ratio := r1 }
  match safeDiv (words.countP hasAlpha : ℚ) (word_count : ℚ) with
  | .error _ => .error a3
  | .ok r2 =>
  let a4 := { a3 with fraction_of_words_with_alpha_character := r2 }
  let a5 := { a4 with required_word_count := words.countP isRequiredWord }
  match metricLoop (mostCommonValue words character_count) [2, 3, 4]
      a5.fraction_of_characters_in_most_common_ngram with
  | .error l => .error { a5 with fraction_of_characters_in_most_common_ngram := l }
  | .ok l =>
  let a6 := { a5 with fraction_of_characters_in_most_common_ngram := l }
  match metricLoop (duplicateValue words) [5, 6, 7, 8, 9, 10]
      a6.fraction_of_characters_in_duplicate_ngrams with
  | .error l2 => .error { a6 with fraction_of_characters_in_duplicate_ngrams := l2 }
  | .ok l2 =>
  let a7 := { a6 with fraction_of_characters_in_duplicate_ngrams := l2 }
  let lines := pyLines text
  let line_count := lines.length
  match safeDiv (lines.countP startsWithBullet : ℚ) (line_count : ℚ) with
  | .error _ => .error a7
  | .ok r3 =>
  let a8 := { a7 with fraction_of_lines_starting_with_bullet_point := r3 }
  match safeDiv (lines.countP endsWithEllipsis : ℚ) (line_count : ℚ) with
  | .error _ => .error a8
  | .ok r4 =>
  let a9 := { a8 with fraction_of_lines_ending_with_ellipsis := r4 }
  match safeDiv
      ((((occurrence_counts lines).filter (fun p => 1 < p.2)).map (fun p => (p.2 : ℕ))).sum : ℚ)
      (line_count : ℚ) with
  | .error _ => .error a9
  | .ok r5 =>
  let a10 := { a9 with fraction_of_duplicate_lines := r5 }
  match safeDiv
      ((((occurrence_counts lines).filter (fun p => 1 < p.2)).map
          (fun p => (p.1.length * p.2 : ℕ))).sum : ℚ)
      (character_count : ℚ) with
  | .error _ => .error a10
  | .ok r6 =>
  .ok { a10 with fraction__of_characters_in_duplicate_lines := some r6 }

/-- The record right after `attrs = GopherAttributes([], [])` and
`attrs.character_count = len(text)`: empty ngram lists, the character
count, and every other field at its dataclass default. -/
def initAttrs (chars : List Char) : GopherAttributes :=
  { fraction_of_characters_in_most_common_ngram := []
    fraction_of_characters_in_duplicate_ngrams := []
    character_count := chars.length }

/-- Source `get_attributes`, returning also the logged excerpt (`text[:200]`)
when the `except` handler fired (`none` = no exception). -/
def get_attributes_core (text : String) : GopherAttributes × Option (List Char) :=
  if text.toList.length = 0 then (initAttrs text.toList, none)
  else
    match tryBody text.toList (initAttrs text.toList) with
    | .ok a => (a, none)
    | .error a => (a, some (text.toList.take 200))

/-- Source `get_attributes(text)`: the returned attribute record. -/
def get_attributes (text : String) : GopherAttributes :=
  (get_attributes_core text).1

/-- Modelled from the spec: `Span` from `core_tools/data_types` (not
under the sources provided) — "a typed, scored annotation of a
byte/character range", `{start, end, type, score}`.  `end` is a Lean
keyword, so the field is called `stop`. -/
structure Span where
  start : Nat
  stop : Nat
  type : String
  score : ℚ
  deriving Repr, DecidableEq

/-- Modelled from the spec: `Document` from `core_tools/data_types` —
"an immutable text unit with an identifier". -/
structure Document where
  id : String
  text : String
  deriving Repr, DecidableEq

/-- Modelled from the spec: `DocResult` from `core_tools/data_types` —
"the aggregate output for one document (identity + all spans)". -/
structure DocResult where
  doc : Document
  spans : List Span
  deriving Repr, DecidableEq

/-- Source `GopherAttributes.as_spans`: one span per ngram-family entry, then
one span per scalar field, all with `start = 0`,
`end = character_count`. -/
def GopherAttributes.as_spans (a : GopherAttributes) : List Span :=
  (a.fraction_of_characters_in_most_common_ngram.map (fun p =>
      Span.mk 0 a.character_count
        ("fraction_of_characters_in_most_common_" ++ toString p.1 ++ "grams") p.2))
  ++ (a.fraction_of_characters_in_duplicate_ngrams.map (fun p =>
      Span.mk 0 a.character_count
        ("fraction_of_characters_in_duplicate_" ++ toString p.1 ++ "grams") p.2))
  ++ [Span.mk 0 a.character_count ("character_count") (a.character_count : ℚ),
      Span.mk 0 a.character_count ("word_count") (a.word_count : ℚ),
      Span.mk 0 a.character_count ("median_word_length") a.median_word_length,
      Span.mk 0 a.character_count ("symbol_to_word_ratio") a.symbol_to_word_ratio,
      Span.mk 0 a.character_count ("fraction_of_words_with_alpha_character")
        a.fraction_of_words_with_alpha_character,
      Span.mk 0 a.character_count ("required_word_count") (a.required_word_count : ℚ),
      Span.mk 0 a.character_count ("fraction_of_lines_starting_with_bullet_point")
        a.fraction_of_lines_starting_with_bullet_point,
      Span.mk 0 a.character_count ("fraction_of_lines_ending_with_ellipsis")
        a.fraction_of_lines_ending_with_ellipsis,
      Span.mk 0 a.character_count ("fraction_of_duplicate_lines")
        a.fraction_of_duplicate_lines,
      Span.mk 0 a.character_count ("fraction_of_characters_in_duplicate_lines")
        a.fraction_of_characters_in_duplicate_lines]

/-- Source `GopherTagger.predict`: compute the attributes of the document text
and convert them to spans. -/
def GopherTagger.predict (doc : Document) : DocResult :=
  { doc := doc, spans := (get_attributes doc.text).as_spans }

/-! ### Pure closed forms for the success path -/

/-- The value `statistics.median` computes on a nonempty list. -/
def pyMedianPure (xs : List Nat) : ℚ :=
  let s := List.insertionSort (· ≤ ·) xs
  let k := xs.length
  if k % 2 = 1 then (s.getD (k / 2) 0 : ℚ)
  else ((s.getD (k / 2 - 1) 0 : ℚ) + (s.getD (k / 2) 0 : ℚ)) / 2

/-- The value the `range(2, 5)` loop stores for one `n` when no
exception occurs. -/
def mostCommonValuePure (words : List (List Char)) (character_count : Nat) (n : Nat) : ℚ :=
  match pyMaxBySnd (occurrence_counts (find_ngrams words n)) with
  | none => 0
  | some mc => (ngramCharCount mc.1 : ℚ) / (character_count : ℚ)

/-- The value the `range(5, 11)` loop stores for one `n` when no
exception occurs. -/
def duplicateValuePure (words : List (List Char)) (n : Nat) : ℚ :=
  let ngrams := find_ngrams words n
  if ngrams = [] then 0
  else
    ((((occurrence_counts ngrams).filter (fun p => 1 < p.2)).map
        (fun p => (ngramCharCount p.1 * p.2 : ℕ))).sum : ℚ) /
      ((ngrams.map ngramCharCount).sum : ℚ)

/-- The attribute record `get_attributes` produces when the `try` block
runs to completion (shown below to be the case exactly when the
whitespace split is nonempty). -/
def computeAttrs (text : List Char) : GopherAttributes :=
  let words := pySplit text
  let cc := wordsCharCount words
  let lines := pyLines text
  { fraction_of_characters_in_most_common_ngram :=
      [2, 3, 4].map (fun n => (n, mostCommonValuePure words cc n))
    fraction_of_characters_in_duplicate_ngrams :=
      [5, 6, 7, 8, 9, 10].map (fun n => (n, duplicateValuePure words n))
    character_count := text.length
    word_count := words.length
    median_word_length := pyMedianPure (words.map List.length)
    symbol_to_word_ratio := (words.countP hasSymbol : ℚ) / (words.length : ℚ)
    fraction_of_words_with_alpha_character :=
      (words.countP hasAlpha : ℚ) / (words.length : ℚ)
    required_word_count := words.countP isRequiredWord
    fraction_of_lines_starting_with_bullet_point :=
      (lines.countP startsWithBullet : ℚ) / (lines.length : ℚ)
    fraction_of_lines_ending_with_ellipsis :=
      (lines.countP endsWithEllipsis : ℚ) / (lines.length : ℚ)
    fraction_of_duplicate_lines :=
      ((((occurrence_counts lines).filter (fun p => 1 < p.2)).map
          (fun p => (p.2 : ℕ))).sum : ℚ) / (lines.length : ℚ)
    fraction_of_characters_in_duplicate_lines := 0
    fraction__of_characters_in_duplicate_lines :=
      some (((((occurrence_counts lines).filter (fun p => 1 < p.2)).map
          (fun p => (p.1.length * p.2 : ℕ))).sum : ℚ) / (cc : ℚ)) }

/-! ### Lemmas on the whitespace split -/

theorem pySplitAux_mem_ne_nil (l : List Char) :
    ∀ (acc : List Char) (w : List Char), w ∈ pySplitAux l acc → w ≠ [] := by
  induction l with
  | nil =>
    intro acc w hw
    simp only [pySplitAux] at hw
    split at hw
    · simp at hw
    · rename_i hacc
      simp only [List.mem_singleton] at hw
      subst hw
      simpa using hacc
  | cons c rest ih =>
    intro acc w hw
    simp only [pySplitAux] at hw
    split at hw
    · split at hw
      · exact ih [] w hw
      · rename_i hacc
        rcases List.mem_cons.mp hw with h | h
        · subst h; simpa using hacc
        · exact ih [] w h
    · exact ih (c :: acc) w hw

theorem pySplit_mem_ne_nil {l : List Char} {w : List Char} (hw : w ∈ pySplit l) : w ≠ [] :=
  pySplitAux_mem_ne_nil l [] w hw

theorem pySplit_nil : pySplit ([] : List Char) = [] := rfl

theorem pySplit_all_ws (l : List Char) (h : ∀ c ∈ l, c.isWhitespace) : pySplit l = [] := by
  induction l with
  | nil => rfl
  | cons c rest ih =>
    have hc : c.isWhitespace := h c (List.mem_cons_self c rest)
    have hrest : ∀ d ∈ rest, d.isWhitespace := fun d hd => h d (List.mem_cons_of_mem c hd)
    simp only [pySplit, pySplitAux, hc, if_pos, if_true]
    simpa [pySplit] using ih hrest

theorem ne_nil_of_pySplit_ne_nil {l : List Char} (h : pySplit l ≠ []) : l ≠ [] := by
  intro hl
  exact h (hl ▸ pySplit_nil)

/-- The word-derived character count is positive once there is a word. -/
theorem wordsCharCount_pos {l : List Char} (h : pySplit l ≠ []) :
    0 < wordsCharCount (pySplit l) := by
  obtain ⟨w, ws, hws⟩ := List.exists_cons_of_ne_nil h
  have hw : w ≠ [] := pySplit_mem_ne_nil (by rw [hws]; exact List.mem_cons_self w ws)
  have : 0 < w.length := List.length_pos.mpr hw
  simp only [wordsCharCount, hws, List.map_cons, List.sum_cons]
  omega

/-! ### Lemmas on the newline split -/

theorem pyLines_ne_nil (l : List Char) : pyLines l ≠ [] := by
  cases l with
  | nil => simp [pyLines]
  | cons c rest =>
    simp only [pyLines]
    split
    · simp
    · cases pyLines rest <;> simp

/-! ### Lemmas on `occurrence_counts` -/

theorem bump_ne_nil {α : Type} [DecidableEq α] (counts : List (α × Nat)) (x : α) :
    bump counts x ≠ [] := by
  cases counts with
  | nil => simp [bump]
  | cons p rest =>
    obtain ⟨y, c⟩ := p
    simp only [bump]
    split <;> simp

theorem foldl_bump_ne_nil {α : Type} [DecidableEq α] (l : List α) :
    ∀ acc : List (α × Nat), acc ≠ [] → l.foldl bump acc ≠ [] := by
  induction l with
  | nil => intro acc h; simpa using h
  | cons x xs ih =>
    intro acc _
    simpa using ih (bump acc x) (bump_ne_nil acc x)

theorem occurrence_counts_ne_nil {α : Type} [DecidableEq α] {l : List α} (h : l ≠ []) :
    occurrence_counts l ≠ [] := by
  obtain ⟨x, xs, rfl⟩ := List.exists_cons_of_ne_nil h
  simpa [occurrence_counts] using foldl_bump_ne_nil xs (bump [] x) (bump_ne_nil [] x)

theorem bump_keys {α : Type} [DecidableEq α] (counts : List (α × Nat)) (x : α)
    {p : α × Nat} (hp : p ∈ bump counts x) :
    (∃ c, (p.1, c) ∈ counts) ∨ p.1 = x := by
  induction counts with
  | nil =>
    simp only [bump, List.mem_singleton] at hp
    right; rw [hp]
  | cons q rest ih =>
    obtain ⟨y, c⟩ := q
    simp only [bump] at hp
    split at hp
    · rename_i hxy
      rcases List.mem_cons.mp hp with h | h
      · right; rw [h, hxy]
      · left; exact ⟨p.2, by
          have : (p.1, p.2) = p := rfl
          rw [this]; exact List.mem_cons_of_mem _ h⟩
    · rcases List.mem_cons.mp hp with h | h
      · left; exact ⟨c, by rw [h]; exact List.mem_cons_self _ _⟩
      · rcases ih h with ⟨c', hc'⟩ | h'
        · left; exact ⟨c', List.mem_cons_of_mem _ hc'⟩
        · right; exact h'

theorem foldl_bump_keys {α : Type} [DecidableEq α] (l : List α) :
    ∀ (acc : List (α × Nat)) (p : α × Nat), p ∈ l.foldl bump acc →
      (∃ c, (p.1, c) ∈ acc) ∨ p.1 ∈ l := by
  induction l with
  | nil => intro acc p hp; left; exact ⟨p.2, by simpa using hp⟩
  | cons x xs ih =>
    intro acc p hp
    simp only [List.foldl_cons] at hp
    rcases ih (bump acc x) p hp with ⟨c, hc⟩ | h
    · rcases bump_keys acc x hc with ⟨c', hc'⟩ | h'
      · left; exact ⟨c', hc'⟩
      · right; exact List.mem_cons.mpr (Or.inl h')
    · right; exact List.mem_cons_of_mem _ h

theorem occurrence_counts_keys {α : Type} [DecidableEq α] {l : List α}
    {p : α × Nat} (hp : p ∈ occurrence_counts l) : p.1 ∈ l := by
  rcases foldl_bump_keys l [] p hp with ⟨c, hc⟩ | h
  · simp at hc
  · exact h

theorem bump_weightSum {α : Type} [DecidableEq α] (f : α → Nat)
    (counts : List (α × Nat)) (x : α) :
    ((bump counts x).map (fun p => f p.1 * p.2)).sum =
      ((counts.map (fun p => f p.1 * p.2)).sum) + f x := by
  induction counts with
  | nil => simp [bump]
  | cons q rest ih =>
    obtain ⟨y, c⟩ := q
    simp only [bump]
    split
    · rename_i hxy
      subst hxy
      simp [List.map_cons, List.sum_cons, Nat.mul_add, Nat.mul_succ]
      ring
    · simp only [List.map_cons, List.sum_cons, ih]
      ring

theorem foldl_bump_weightSum {α : Type} [DecidableEq α] (f : α → Nat) (l : List α) :
    ∀ acc : List (α × Nat),
      ((l.foldl bump acc).map (fun p => f p.1 * p.2)).sum =
        ((acc.map (fun p => f p.1 * p.2)).sum) + (l.map f).sum := by
  induction l with
  | nil => intro acc; simp
  | cons x xs ih =>
    intro acc
    simp only [List.foldl_cons, ih (bump acc x), bump_weightSum, List.map_cons,
      List.sum_cons]
    ring

/-- Summing `f key × count` over the occurrence counts gives the plain
sum of `f` over the list: the counts partition the occurrences. -/
theorem occurrence_counts_weightSum {α : Type} [DecidableEq α] (f : α → Nat) (l : List α) :
    ((occurrence_counts l).map (fun p => f p.1 * p.2)).sum = (l.map f).sum := by
  simpa [occurrence_counts] using foldl_bump_weightSum f l []

/-- The counts of `occurrence_counts` sum to the length of the list. -/
theorem occurrence_counts_countSum {α : Type} [DecidableEq α] (l : List α) :
    ((occurrence_counts l).map (fun p => (p.2 : ℕ))).sum = l.length := by
  have h := occurrence_counts_weightSum (fun _ => 1) l
  simpa using h

/-! ### Lemmas on `pyMaxBySnd` -/

theorem foldl_max_mem {α : Type} (xs : List (α × Nat)) :
    ∀ b : α × Nat,
      xs.foldl (fun best y => if best.2 < y.2 then y else best) b = b ∨
        xs.foldl (fun best y => if best.2 < y.2 then y else best) b ∈ xs := by
  induction xs with
  | nil => intro b; left; rfl
  | cons y ys ih =>
    intro b
    simp only [List.foldl_cons]
    rcases ih (if b.2 < y.2 then y else b) with h | h
    · rw [h]
      split
      · right; exact List.mem_cons_self _ _
      · left; rfl
    · right; exact List.mem_cons_of_mem _ h

theorem pyMaxBySnd_mem {α : Type} {L : List (α × Nat)} {m : α × Nat}
    (h : pyMaxBySnd L = some m) : m ∈ L := by
  cases L with
  | nil => simp [pyMaxBySnd] at h
  | cons x xs =>
    simp only [pyMaxBySnd, Option.some.injEq] at h
    rcases foldl_max_mem xs x with h' | h'
    · rw [← h, h']; exact List.mem_cons_self _ _
    · rw [← h]; exact List.mem_cons_of_mem _ h'

theorem foldl_max_ge {α : Type} (xs : List (α × Nat)) :
    ∀ b : α × Nat,
      b.2 ≤ (xs.foldl (fun best y => if best.2 < y.2 then y else best) b).2 ∧
        ∀ q ∈ xs, q.2 ≤ (xs.foldl (fun best y => if best.2 < y.2 then y else best) b).2 := by
  induction xs with
  | nil => intro b; exact ⟨Nat.le_refl _, by simp⟩
  | cons y ys ih =>
    intro b
    simp only [List.foldl_cons]
    obtain ⟨h1, h2⟩ := ih (if b.2 < y.2 then y else b)
    constructor
    · refine le_trans ?_ h1
      split <;> omega
    · intro q hq
      rcases List.mem_cons.mp hq with h | h
      · subst h
        refine le_trans ?_ h1
        split <;> omega
      · exact h2 q h

/-- The element Python's `max(..., key=lambda x: x[1])` returns has a
maximal second component. -/
theorem pyMaxBySnd_max {α : Type} {L : List (α × Nat)} {m : α × Nat}
    (h : pyMaxBySnd L = some m) : ∀ q ∈ L, q.2 ≤ m.2 := by
  cases L with
  | nil => simp
  | cons x xs =>
    simp only [pyMaxBySnd, Option.some.injEq] at h
    intro q hq
    obtain ⟨h1, h2⟩ := foldl_max_ge xs x
    rcases List.mem_cons.mp hq with hh | hh
    · subst hh; rw [← h]; exact h1
    · rw [← h]; exact h2 q hh

theorem pyMaxBySnd_isSome {α : Type} {L : List (α × Nat)} (h : L ≠ []) :
    ∃ m, pyMaxBySnd L = some m := by
  cases L with
  | nil => exact absurd rfl h
  | cons x xs => exact ⟨_, rfl⟩

/-! ### Lemmas on `find_ngrams` -/

theorem find_ngrams_mem {words : List (List Char)} {n : Nat} {g : List (List Char)}
    (hg : g ∈ find_ngrams words n) :
    g.Sublist words ∧ g.length = n ∧ n ≠ 0 := by
  simp only [find_ngrams] at hg
  split at hg
  · simp at hg
  · rename_i hcond
    push_neg at hcond
    obtain ⟨hn0, hlen⟩ := hcond
    simp only [List.mem_map, List.mem_range] at hg
    obtain ⟨i, hi, rfl⟩ := hg
    refine ⟨(List.take_sublist n (words.drop i)).trans (List.drop_sublist i words), ?_, hn0⟩
    rw [List.length_take, List.length_drop]
    omega

/-- Any n-gram window drawn from nonempty words has positive character
count. -/
theorem find_ngrams_charCount_pos {words : List (List Char)} {n : Nat}
    {g : List (List Char)} (hg : g ∈ find_ngrams words n)
    (hw : ∀ w ∈ words, w ≠ []) : 0 < ngramCharCount g := by
  obtain ⟨hsub, hlen, hn0⟩ := find_ngrams_mem hg
  obtain ⟨w, ws, rfl⟩ := List.exists_cons_of_ne_nil
    (show g ≠ [] by intro h; rw [h] at hlen; exact hn0 hlen.symm)
  have hwmem : w ∈ words := hsub.subset (List.mem_cons_self w ws)
  have : 0 < w.length := List.length_pos.mpr (hw w hwmem)
  simp only [ngramCharCount, List.map_cons, List.sum_cons]
  omega

/-- An n-gram's characters are at most the total word characters. -/
theorem find_ngrams_charCount_le {words : List (List Char)} {n : Nat}
    {g : List (List Char)} (hg : g ∈ find_ngrams words n) :
    ngramCharCount g ≤ wordsCharCount words := by
  obtain ⟨hsub, -, -⟩ := find_ngrams_mem hg
  exact List.Sublist.sum_le_sum (hsub.map List.length) (fun a _ => Nat.zero_le a)

/-! ### Loop and fallible-step reductions -/

theorem metricLoop_ok (f : Nat → Except Unit ℚ) (v : Nat → ℚ)
    (ns : List Nat) (hok : ∀ n ∈ ns, f n = .ok (v n)) :
    ∀ acc, metricLoop f ns acc = .ok (acc ++ ns.map (fun n => (n, v n))) := by
  induction ns with
  | nil => intro acc; simp [metricLoop]
  | cons n ns ih =>
    intro acc
    have hn := hok n (List.mem_cons_self n ns)
    have hns : ∀ m ∈ ns, f m = .ok (v m) := fun m hm => hok m (List.mem_cons_of_mem n hm)
    simp only [metricLoop, hn, ih hns, List.map_cons]
    simp

theorem pyMedian_ok {xs : List Nat} (h : xs ≠ []) : pyMedian xs = .ok (pyMedianPure xs) := by
  simp only [pyMedian, pyMedianPure, h, if_false]
  split <;> rfl

theorem safeDiv_ok {a b : ℚ} (h : b ≠ 0) : safeDiv a b = .ok (a / b) := by
  simp [safeDiv, h]

theorem mostCommonValue_ok (words : List (List Char)) {cc : Nat} (hcc : cc ≠ 0) (n : Nat) :
    mostCommonValue words cc n = .ok (mostCommonValuePure words cc n) := by
  simp only [mostCommonValue, mostCommonValuePure]
  by_cases hng : find_ngrams words n = []
  · simp [hng, occurrence_counts, pyMaxBySnd]
  · obtain ⟨m, hm⟩ := pyMaxBySnd_isSome (occurrence_counts_ne_nil hng)
    rw [if_neg hng, hm]
    exact safeDiv_ok (by exact_mod_cast hcc)

theorem duplicateValue_ok (words : List (List Char)) (hw : ∀ w ∈ words, w ≠ []) (n : Nat) :
    duplicateValue words n = .ok (duplicateValuePure words n) := by
  simp only [duplicateValue, duplicateValuePure]
  by_cases hng : find_ngrams words n = []
  · simp [hng]
  · obtain ⟨g, gs, hgs⟩ := List.exists_cons_of_ne_nil hng
    have hgpos : 0 < ngramCharCount g :=
      find_ngrams_charCount_pos (by rw [hgs]; exact List.mem_cons_self g gs) hw
    have hden : 0 < ((find_ngrams words n).map ngramCharCount).sum := by
      rw [hgs, List.map_cons, List.sum_cons]
      omega
    rw [if_neg hng, if_neg hng]
    refine safeDiv_ok ?_
    have hne : ((find_ngrams words n).map ngramCharCount).sum ≠ 0 := by omega
    exact_mod_cast hne

/-! ### Characterization of `tryBody` and `get_attributes_core` -/

/-- With no words (whitespace-only text), `median` raises on the empty
list, so the `try` block aborts right after `attrs.word_count` was
assigned. -/
theorem tryBody_err (text : List Char) (attrs0 : GopherAttributes)
    (h : pySplit text = []) :
    tryBody text attrs0 = .error { attrs0 with word_count := 0 } := by
  simp only [tryBody, h]
  rfl

/-- With at least one word every denominator in the `try` block is
nonzero, so the block runs to completion and computes `computeAttrs`. -/
theorem tryBody_ok (text : List Char) (h : pySplit text ≠ []) :
    tryBody text (initAttrs text) = .ok (computeAttrs text) := by
  have hwne : ∀ w ∈ pySplit text, w ≠ [] := fun w hw => pySplit_mem_ne_nil hw
  have hmap : (pySplit text).map List.length ≠ [] := by
    simpa using h
  have hwc : ((pySplit text).length : ℚ) ≠ 0 := by
    have := List.length_pos.mpr h
    exact_mod_cast Nat.pos_iff_ne_zero.mp this
  have hccnat : wordsCharCount (pySplit text) ≠ 0 :=
    Nat.pos_iff_ne_zero.mp (wordsCharCount_pos h)
  have hcc : ((wordsCharCount (pySplit text)) : ℚ) ≠ 0 := by exact_mod_cast hccnat
  have hlc : ((pyLines text).length : ℚ) ≠ 0 := by
    have := List.length_pos.mpr (pyLines_ne_nil text)
    exact_mod_cast Nat.pos_iff_ne_zero.mp this
  have hmc : ∀ n ∈ [2, 3, 4],
      mostCommonValue (pySplit text) (wordsCharCount (pySplit text)) n =
        .ok (mostCommonValuePure (pySplit text) (wordsCharCount (pySplit text)) n) :=
    fun n _ => mostCommonValue_ok (pySplit text) hccnat n
  have hdv : ∀ n ∈ [5, 6, 7, 8, 9, 10],
      duplicateValue (pySplit text) n = .ok (duplicateValuePure (pySplit text) n) :=
    fun n _ => duplicateValue_ok (pySplit text) hwne n
  simp only [tryBody, initAttrs, pyMedian_ok hmap, safeDiv_ok hwc, safeDiv_ok hcc,
    safeDiv_ok hlc, metricLoop_ok _ _ _ hmc, metricLoop_ok _ _ _ hdv, computeAttrs]
  rfl

theorem get_attributes_core_ok (text : String) (h : pySplit text.toList ≠ []) :
    get_attributes_core text = (computeAttrs text.toList, none) := by
  have hne : text.toList ≠ [] := ne_nil_of_pySplit_ne_nil h
  have hlen : ¬ text.toList.length = 0 :=
    Nat.pos_iff_ne_zero.mp (List.length_pos.mpr hne)
  simp only [get_attributes_core, if_neg hlen, tryBody_ok text.toList h]

theorem get_attributes_core_err (text : String) (h1 : text.toList ≠ [])
    (h2 : pySplit text.toList = []) :
    get_attributes_core text = (initAttrs text.toList, some (text.toList.take 200)) := by
  have hlen : ¬ text.toList.length = 0 :=
    Nat.pos_iff_ne_zero.mp (List.length_pos.mpr h1)
  simp only [get_attributes_core, if_neg hlen, tryBody_err _ _ h2]
  simp [initAttrs]

theorem get_attributes_core_empty (text : String) (h : text.toList = []) :
    get_attributes_core text = (initAttrs [], none) := by
  simp only [get_attributes_core, h, List.length_nil, if_pos]

/-! ### Bounds helpers -/

theorem frac_bounds {a b : Nat} (hab : a ≤ b) (hb : b ≠ 0) :
    0 ≤ (a : ℚ) / (b : ℚ) ∧ (a : ℚ) / (b : ℚ) ≤ 1 := by
  constructor
  · positivity
  · rw [div_le_one (by exact_mod_cast Nat.pos_of_ne_zero hb)]
    exact_mod_cast hab

theorem filter_map_sum_le {α : Type} (L : List α) (q : α → Bool) (g : α → Nat) :
    ((L.filter q).map g).sum ≤ (L.map g).sum :=
  List.Sublist.sum_le_sum ((List.filter_sublist L).map g) (fun a _ => Nat.zero_le a)

/-- The duplicate-line numerator (all occurrences of duplicated lines)
is at most the number of lines. -/
theorem dupLines_count_le {α : Type} [DecidableEq α] (lines : List α) :
    (((occurrence_counts lines).filter (fun p => 1 < p.2)).map (fun p => (p.2 : ℕ))).sum ≤
      lines.length := by
  calc (((occurrence_counts lines).filter (fun p => 1 < p.2)).map (fun p => (p.2 : ℕ))).sum
      ≤ ((occurrence_counts lines).map (fun p => (p.2 : ℕ))).sum :=
        filter_map_sum_le _ _ _
    _ = lines.length := occurrence_counts_countSum lines

theorem mostCommonValuePure_bounds (words : List (List Char))
    (hcc : wordsCharCount words ≠ 0) (n : Nat) :
    0 ≤ mostCommonValuePure words (wordsCharCount words) n ∧
      mostCommonValuePure words (wordsCharCount words) n ≤ 1 := by
  simp only [mostCommonValuePure]
  cases hmax : pyMaxBySnd (occurrence_counts (find_ngrams words n)) with
  | none => norm_num
  | some mc =>
    have hmem : mc ∈ occurrence_counts (find_ngrams words n) := pyMaxBySnd_mem hmax
    have hkey : mc.1 ∈ find_ngrams words n := occurrence_counts_keys hmem
    exact frac_bounds (find_ngrams_charCount_le hkey) hcc

theorem duplicateValuePure_bounds (words : List (List Char))
    (hw : ∀ w ∈ words, w ≠ []) (n : Nat) :
    0 ≤ duplicateValuePure words n ∧ duplicateValuePure words n ≤ 1 := by
  simp only [duplicateValuePure]
  by_cases hng : find_ngrams words n = []
  · simp [hng]
  · rw [if_neg hng]
    obtain ⟨g, gs, hgs⟩ := List.exists_cons_of_ne_nil hng
    have hgpos : 0 < ngramCharCount g :=
      find_ngrams_charCount_pos (by rw [hgs]; exact List.mem_cons_self g gs) hw
    have hden : ((find_ngrams words n).map ngramCharCount).sum ≠ 0 := by
      rw [hgs, List.map_cons, List.sum_cons]
      omega
    refine frac_bounds ?_ hden
    calc (((occurrence_counts (find_ngrams words n)).filter (fun p => 1 < p.2)).map
          (fun p => (ngramCharCount p.1 * p.2 : ℕ))).sum
        ≤ ((occurrence_counts (find_ngrams words n)).map
            (fun p => (ngramCharCount p.1 * p.2 : ℕ))).sum := filter_map_sum_le _ _ _
      _ = ((find_ngrams words n).map ngramCharCount).sum :=
          occurrence_counts_weightSum ngramCharCount (find_ngrams words n)

/-- The most common bigram of `"the cat the cat the cat"` is
`("the", "cat")` with 3 occurrences, giving fraction `6 / 18 = 1 / 3`. -/
theorem mostCommon_bigram_example :
    mostCommonValuePure (pySplit ("the cat the cat the cat").toList)
      (wordsCharCount (pySplit ("the cat the cat the cat").toList)) 2 = 1 / 3 := by
  have e : pyMaxBySnd (occurrence_counts
      (find_ngrams (pySplit ("the cat the cat the cat").toList) 2)) =
      some ([['t', 'h', 'e'], ['c', 'a', 't']], 3) := by decide
  have e2 : wordsCharCount (pySplit ("the cat the cat the cat").toList) = 18 := by decide
  have e3 : ngramCharCount [['t', 'h', 'e'], ['c', 'a', 't']] = 6 := by decide
  simp only [mostCommonValuePure, e, e2, e3]
  norm_num

/-! ### Claim theorems -/

/-- C5: for every text `t`, the `character_count` field of the record
returned by `get_attributes(t)` equals the exact character length of
`t` — on the empty-text early return, on the exception path (where it
was set before the failure point), and on the full-computation path. -/
theorem gopher_C5_character_count (text : String) :
    (get_attributes text).character_count = text.length := by
  by_cases h0 : text.toList = []
  · rw [get_attributes, get_attributes_core_empty text h0]
    simp only [initAttrs, List.length_nil]
    rw [show text.length = text.toList.length from rfl, h0]
    rfl
  · by_cases hs : pySplit text.toList = []
    · rw [get_attributes, get_attributes_core_err text h0 hs]
      rfl
    · rw [get_attributes, get_attributes_core_ok text hs]
      rfl

/-- C6: `get_attributes("")` takes the `character_count == 0` early
return: no exception is recorded, every numeric field keeps its default
zero value, and both ngram sequences are the empty list. -/
theorem gopher_C6_empty_text :
    get_attributes ("") =
      { fraction_of_characters_in_most_common_ngram := []
        fraction_of_characters_in_duplicate_ngrams := [] } ∧
      (get_attributes_core ("")).2 = none :=
  ⟨rfl, rfl⟩

/-- C7: whenever the `except` handler fires (an excerpt was logged),
the logged excerpt is `text[:200]` — a bounded prefix, not the whole
document — and `get_attributes` still returns a record holding exactly
the fields assigned before the failure point (`character_count` and
`word_count`), every other field keeping its default zero/empty value;
no exception propagates (`get_attributes_core` is a total function). -/
theorem gopher_C7_exception_caught (text : String) (e : List Char)
    (h : (get_attributes_core text).2 = some e) :
    e = text.toList.take 200 ∧ e.length ≤ 200 ∧
      get_attributes text =
        { fraction_of_characters_in_most_common_ngram := []
          fraction_of_characters_in_duplicate_ngrams := []
          character_count := text.length
          word_count := (pySplit text.toList).length } := by
  by_cases h0 : text.toList = []
  · rw [get_attributes_core_empty text h0] at h
    simp at h
  · by_cases hs : pySplit text.toList = []
    · rw [get_attributes_core_err text h0 hs] at h
      simp only [Option.some.injEq] at h
      subst h
      refine ⟨rfl, ?_, ?_⟩
      · rw [List.length_take]
        omega
      · rw [get_attributes, get_attributes_core_err text h0 hs]
        simp only [initAttrs, hs, List.length_nil]
        rfl
    · rw [get_attributes_core_ok text hs] at h
      simp at h

/-- Witness for C7 at the whitespace-only text `" "`. -/
theorem gopher_C7_witness :
    (get_attributes_core (" ")).2 = some [' '] ∧
      ([' '] = (" ").toList.take 200 ∧ ([' '] : List Char).length ≤ 200 ∧
        get_attributes (" ") =
          { fraction_of_characters_in_most_common_ngram := []
            fraction_of_characters_in_duplicate_ngrams := []
            character_count := 1
            word_count := (pySplit (" ").toList).length }) :=
  ⟨by decide, gopher_C7_exception_caught (" ") [' '] (by decide)⟩

/-- C10: on a non-empty all-whitespace text the word list is empty, so
`median` faults before any ratio is divided by `word_count`; the
handler absorbs the fault (an excerpt is logged), and the returned
record has `character_count = len(text)` with `word_count` (assigned
`0`), every ratio and fraction field, and both ngram sequences at their
default values. -/
theorem gopher_C10_whitespace_only (text : String) (h1 : text.toList ≠ [])
    (h2 : ∀ c ∈ text.toList, c.isWhitespace) :
    get_attributes_core text =
      ({ fraction_of_characters_in_most_common_ngram := []
         fraction_of_characters_in_duplicate_ngrams := []
         character_count := text.length }, some (text.toList.take 200)) := by
  have hs : pySplit text.toList = [] := pySplit_all_ws _ h2
  rw [get_attributes_core_err text h1 hs]
  rfl

/-- Witness for C10 at `" "`. -/
theorem gopher_C10_witness :
    (" ").toList = [' '] ∧
      get_attributes_core (" ") =
        ({ fraction_of_characters_in_most_common_ngram := []
           fraction_of_characters_in_duplicate_ngrams := []
           character_count := 1 }, some [' ']) :=
  ⟨rfl, gopher_C10_whitespace_only (" ") (by decide) (by decide)⟩

/-- C1 counterexample: for `"a\na\nb\n"` the claim demands
`fraction_of_characters_in_duplicate_lines = (1*2)/character_count`
with `character_count = 6` (the full-text length), i.e. `2/6`; the
field actually stays `0`. -/
theorem gopher_C1_counterexample :
    ¬ ((get_attributes ("a\na\nb\n")).fraction_of_characters_in_duplicate_lines =
        (2 : ℚ) / 6) := by
  have hs : pySplit ("a\na\nb\n").toList ≠ [] := by decide
  rw [get_attributes, get_attributes_core_ok _ hs]
  simp only [computeAttrs]
  norm_num

/-- C1 amended: the source assigns the computed quotient to the
misspelled attribute `fraction__of_characters_in_duplicate_lines`, so
the declared field `fraction_of_characters_in_duplicate_lines` keeps
its default `0.0` for every text; the computed (and discarded) value
divides by the word-derived character count, giving `2/3` (not `2/6`)
for `"a\na\nb\n"`. -/
theorem gopher_C1_amended :
    (∀ text : String,
      (get_attributes text).fraction_of_characters_in_duplicate_lines = 0) ∧
      (get_attributes ("a\na\nb\n")).fraction__of_characters_in_duplicate_lines =
        some ((2 : ℚ) / 3) := by
  constructor
  · intro text
    by_cases h0 : text.toList = []
    · rw [get_attributes, get_attributes_core_empty text h0]
      rfl
    · by_cases hs : pySplit text.toList = []
      · rw [get_attributes, get_attributes_core_err text h0 hs]
        rfl
      · rw [get_attributes, get_attributes_core_ok text hs]
        rfl
  · have hs : pySplit ("a\na\nb\n").toList ≠ [] := by decide
    rw [get_attributes, get_attributes_core_ok _ hs]
    simp only [computeAttrs]
    have e1 : ((((occurrence_counts (pyLines ("a\na\nb\n").toList)).filter
        (fun p => 1 < p.2)).map (fun p => (p.1.length * p.2 : ℕ))).sum) = 2 := by decide
    have e2 : wordsCharCount (pySplit ("a\na\nb\n").toList) = 3 := by decide
    rw [e1, e2]
    norm_num

/-- C2 counterexample: `"a\na\nb\n".split("\n")` has a trailing empty
line, so `line_count = 4` (not 3) and `fraction_of_duplicate_lines`
is `2/4`, not `2/3`. -/
theorem gopher_C2_counterexample :
    ¬ ((get_attributes ("a\na\nb\n")).fraction_of_duplicate_lines = (2 : ℚ) / 3) := by
  have hs : pySplit ("a\na\nb\n").toList ≠ [] := by decide
  rw [get_attributes, get_attributes_core_ok _ hs]
  simp only [computeAttrs]
  have e1 : ((((occurrence_counts (pyLines ("a\na\nb\n").toList)).filter
      (fun p => 1 < p.2)).map (fun p => (p.2 : ℕ))).sum) = 2 := by decide
  have e2 : (pyLines ("a\na\nb\n").toList).length = 4 := by decide
  rw [e1, e2]
  norm_num

/-- C2 amended: splitting `"a\na\nb\n"` on the newline character gives
the four lines `["a", "a", "b", ""]` (the trailing newline yields a
final empty line), and `fraction_of_duplicate_lines = 2/4 = 1/2`. -/
theorem gopher_C2_amended :
    pyLines ("a\na\nb\n").toList = [['a'], ['a'], ['b'], []] ∧
      (get_attributes ("a\na\nb\n")).fraction_of_duplicate_lines = (2 : ℚ) / 4 := by
  constructor
  · decide
  · have hs : pySplit ("a\na\nb\n").toList ≠ [] := by decide
    rw [get_attributes, get_attributes_core_ok _ hs]
    simp only [computeAttrs]
    have e1 : ((((occurrence_counts (pyLines ("a\na\nb\n").toList)).filter
        (fun p => 1 < p.2)).map (fun p => (p.2 : ℕ))).sum) = 2 := by decide
    have e2 : (pyLines ("a\na\nb\n").toList).length = 4 := by decide
    rw [e1, e2]
    norm_num

/-- C3 counterexample: for the non-empty all-whitespace text `" "`
there are no contiguous 2-word sequences, so the claim demands a
recorded pair `(2, 0.0)`; but the word list is empty, the computation
faults at `median` before the ngram loop, and the ngram sequence stays
empty — nothing is recorded for any `n`. -/
theorem gopher_C3_counterexample :
    (get_attributes (" ")).fraction_of_characters_in_most_common_ngram = [] ∧
      find_ngrams (pySplit (" ").toList) 2 = [] := by
  constructor
  · rw [get_attributes, get_attributes_core_err (" ") (by decide) (by decide)]
    rfl
  · decide

/-- C3 amended: for every text whose whitespace split is nonempty (so
the ngram loop is reached), `get_attributes` records, in order, a pair
`(n, value)` for each `n` in 2..4, where `value` is `0.0` when no
contiguous `n`-word sequences exist and otherwise is the total
characters of the n-gram Python's `max` selects — a genuinely
most-commonly-occurring n-gram — divided by the word-derived character
count. -/
theorem gopher_C3_amended (text : String) (h : pySplit text.toList ≠ []) :
    (get_attributes text).fraction_of_characters_in_most_common_ngram =
      [2, 3, 4].map (fun n =>
        (n, mostCommonValuePure (pySplit text.toList)
              (wordsCharCount (pySplit text.toList)) n)) ∧
    (∀ n : Nat, find_ngrams (pySplit text.toList) n = [] →
      mostCommonValuePure (pySplit text.toList)
        (wordsCharCount (pySplit text.toList)) n = 0) ∧
    (∀ (n : Nat) (g : List (List Char)) (c : Nat),
      pyMaxBySnd (occurrence_counts (find_ngrams (pySplit text.toList) n)) = some (g, c) →
      mostCommonValuePure (pySplit text.toList)
          (wordsCharCount (pySplit text.toList)) n =
          (ngramCharCount g : ℚ) / (wordsCharCount (pySplit text.toList) : ℚ) ∧
        (g, c) ∈ occurrence_counts (find_ngrams (pySplit text.toList) n) ∧
        ∀ q ∈ occurrence_counts (find_ngrams (pySplit text.toList) n), q.2 ≤ c) := by
  refine ⟨?_, ?_, ?_⟩
  · rw [get_attributes, get_attributes_core_ok text h]
    rfl
  · intro n hng
    simp only [mostCommonValuePure, hng]
    rfl
  · intro n g c hmax
    refine ⟨?_, pyMaxBySnd_mem hmax, fun q hq => pyMaxBySnd_max hmax q hq⟩
    simp only [mostCommonValuePure, hmax]

/-- Witness for C3 at `"the cat the cat the cat"`: the pairs for
n = 2, 3, 4 are recorded, and the most-common 2-gram fraction is
`(len("the") + len("cat")) / 18 = 1/3`. -/
theorem gopher_C3_witness :
    pySplit ("the cat the cat the cat").toList ≠ [] ∧
      ((get_attributes ("the cat the cat the cat")).fraction_of_characters_in_most_common_ngram =
        [2, 3, 4].map (fun n =>
          (n, mostCommonValuePure (pySplit ("the cat the cat the cat").toList)
                (wordsCharCount (pySplit ("the cat the cat the cat").toList)) n))) ∧
      mostCommonValuePure (pySplit ("the cat the cat the cat").toList)
        (wordsCharCount (pySplit ("the cat the cat the cat").toList)) 2 = 1 / 3 :=
  ⟨by decide, (gopher_C3_amended ("the cat the cat the cat") (by decide)).1,
    mostCommon_bigram_example⟩

/-- C4 counterexample: for the non-empty all-whitespace text `" "`
there are no 5-grams, so the claim demands a recorded `0.0` for n = 5;
but the computation faults at `median` before the loop and the
duplicate-ngram sequence stays empty. -/
theorem gopher_C4_counterexample :
    (get_attributes (" ")).fraction_of_characters_in_duplicate_ngrams = [] ∧
      find_ngrams (pySplit (" ").toList) 5 = [] := by
  constructor
  · rw [get_attributes, get_attributes_core_err (" ") (by decide) (by decide)]
    rfl
  · decide

/-- C4 amended: for every text whose whitespace split is nonempty (so
the ngram loop is reached), `get_attributes` records, in order for each
`n` in 5..10, the pair `(n, value)` where `value` is `0.0` when no
n-grams exist and otherwise is the sum over distinct n-grams occurring
more than once of `(characters of the n-gram) × (occurrence count)`,
divided by the sum of word-character lengths over all n-gram windows. -/
theorem gopher_C4_amended (text : String) (h : pySplit text.toList ≠ []) :
    (get_attributes text).fraction_of_characters_in_duplicate_ngrams =
      [5, 6, 7, 8, 9, 10].map (fun n =>
        (n, if find_ngrams (pySplit text.toList) n = [] then (0 : ℚ)
            else
              ((((occurrence_counts (find_ngrams (pySplit text.toList) n)).filter
                    (fun p => 1 < p.2)).map
                    (fun p => (ngramCharCount p.1 * p.2 : ℕ))).sum : ℚ) /
                (((find_ngrams (pySplit text.toList) n).map ngramCharCount).sum : ℚ))) := by
  rw [get_attributes, get_attributes_core_ok text h]
  rfl

/-- Witness for C4 at `"a a a a a"` (five words: one 5-gram, no
duplicates, every recorded value is `0.0`). -/
theorem gopher_C4_witness :
    pySplit ("a a a a a").toList ≠ [] ∧
      (get_attributes ("a a a a a")).fraction_of_characters_in_duplicate_ngrams =
        [5, 6, 7, 8, 9, 10].map (fun n =>
          (n, if find_ngrams (pySplit ("a a a a a").toList) n = [] then (0 : ℚ)
              else
                ((((occurrence_counts (find_ngrams (pySplit ("a a a a a").toList) n)).filter
                      (fun p => 1 < p.2)).map
                      (fun p => (ngramCharCount p.1 * p.2 : ℕ))).sum : ℚ) /
                  (((find_ngrams (pySplit ("a a a a a").toList) n).map
                      ngramCharCount).sum : ℚ))) :=
  ⟨by decide, gopher_C4_amended ("a a a a a") (by decide)⟩

/-- C8: whenever no internal error occurred (no excerpt was logged),
every fraction field of the returned record — `symbol_to_word_ratio`,
`fraction_of_words_with_alpha_character`, both line fractions, both
duplicate-line fractions, and every per-n value in both ngram
sequences — lies in `[0, 1]`. -/
theorem gopher_C8_fractions_unit_interval (text : String)
    (h : (get_attributes_core text).2 = none) :
    (0 ≤ (get_attributes text).symbol_to_word_ratio ∧
      (get_attributes text).symbol_to_word_ratio ≤ 1) ∧
    (0 ≤ (get_attributes text).fraction_of_words_with_alpha_character ∧
      (get_attributes text).fraction_of_words_with_alpha_character ≤ 1) ∧
    (0 ≤ (get_attributes text).fraction_of_lines_starting_with_bullet_point ∧
      (get_attributes text).fraction_of_lines_starting_with_bullet_point ≤ 1) ∧
    (0 ≤ (get_attributes text).fraction_of_lines_ending_with_ellipsis ∧
      (get_attributes text).fraction_of_lines_ending_with_ellipsis ≤ 1) ∧
    (0 ≤ (get_attributes text).fraction_of_duplicate_lines ∧
      (get_attributes text).fraction_of_duplicate_lines ≤ 1) ∧
    (0 ≤ (get_attributes text).fraction_of_characters_in_duplicate_lines ∧
      (get_attributes text).fraction_of_characters_in_duplicate_lines ≤ 1) ∧
    (∀ p ∈ (get_attributes text).fraction_of_characters_in_most_common_ngram,
      0 ≤ p.2 ∧ p.2 ≤ 1) ∧
    (∀ p ∈ (get_attributes text).fraction_of_characters_in_duplicate_ngrams,
      0 ≤ p.2 ∧ p.2 ≤ 1) := by
  by_cases h0 : text.toList = []
  · rw [get_attributes, get_attributes_core_empty text h0]
    simp [initAttrs]
  · by_cases hs : pySplit text.toList = []
    · rw [get_attributes_core_err text h0 hs] at h
      simp at h
    · rw [get_attributes, get_attributes_core_ok text hs]
      have hwne : ∀ w ∈ pySplit text.toList, w ≠ [] := fun w hw => pySplit_mem_ne_nil hw
      have hwc : (pySplit text.toList).length ≠ 0 :=
        Nat.pos_iff_ne_zero.mp (List.length_pos.mpr hs)
      have hcc : wordsCharCount (pySplit text.toList) ≠ 0 :=
        Nat.pos_iff_ne_zero.mp (wordsCharCount_pos hs)
      have hlc : (pyLines text.toList).length ≠ 0 :=
        Nat.pos_iff_ne_zero.mp (List.length_pos.mpr (pyLines_ne_nil _))
      simp only [computeAttrs]
      refine ⟨frac_bounds (List.countP_le_length _) hwc,
        frac_bounds (List.countP_le_length _) hwc,
        frac_bounds (List.countP_le_length _) hlc,
        frac_bounds (List.countP_le_length _) hlc,
        frac_bounds (dupLines_count_le _) hlc,
        by norm_num, ?_, ?_⟩
      · intro p hp
        simp only [List.mem_map] at hp
        obtain ⟨n, hn, rfl⟩ := hp
        exact mostCommonValuePure_bounds _ hcc n
      · intro p hp
        simp only [List.mem_map] at hp
        obtain ⟨n, hn, rfl⟩ := hp
        exact duplicateValuePure_bounds _ hwne n

/-- Witness for C8 at `"a b"` (no internal error occurs there). -/
theorem gopher_C8_witness :
    (get_attributes_core ("a b")).2 = none ∧
      ((0 ≤ (get_attributes ("a b")).symbol_to_word_ratio ∧
        (get_attributes ("a b")).symbol_to_word_ratio ≤ 1) ∧
      (0 ≤ (get_attributes ("a b")).fraction_of_words_with_alpha_character ∧
        (get_attributes ("a b")).fraction_of_words_with_alpha_character ≤ 1) ∧
      (0 ≤ (get_attributes ("a b")).fraction_of_lines_starting_with_bullet_point ∧
        (get_attributes ("a b")).fraction_of_lines_starting_with_bullet_point ≤ 1) ∧
      (0 ≤ (get_attributes ("a b")).fraction_of_lines_ending_with_ellipsis ∧
        (get_attributes ("a b")).fraction_of_lines_ending_with_ellipsis ≤ 1) ∧
      (0 ≤ (get_attributes ("a b")).fraction_of_duplicate_lines ∧
        (get_attributes ("a b")).fraction_of_duplicate_lines ≤ 1) ∧
      (0 ≤ (get_attributes ("a b")).fraction_of_characters_in_duplicate_lines ∧
        (get_attributes ("a b")).fraction_of_characters_in_duplicate_lines ≤ 1) ∧
      (∀ p ∈ (get_attributes ("a b")).fraction_of_characters_in_most_common_ngram,
        0 ≤ p.2 ∧ p.2 ≤ 1) ∧
      (∀ p ∈ (get_attributes ("a b")).fraction_of_characters_in_duplicate_ngrams,
        0 ≤ p.2 ∧ p.2 ≤ 1)) :=
  ⟨by decide, gopher_C8_fractions_unit_interval ("a b") (by decide)⟩

/-- C9: every span the Attribute-Record-to-Span conversion produces has
`start = 0` and `end = character_count` (hence
`0 ≤ start ≤ end ≤ character_count`), and the spans of the `DocResult`
returned by `predict` are exactly that conversion applied to the
document's attributes; the conversion is a total function with no
failure modes. -/
theorem gopher_C9_span_invariant (a : GopherAttributes) (doc : Document) :
    (∀ s ∈ a.as_spans, s.start = 0 ∧ s.stop = a.character_count) ∧
    (GopherTagger.predict doc).spans = (get_attributes doc.text).as_spans ∧
    (∀ s ∈ (GopherTagger.predict doc).spans,
      s.start = 0 ∧ s.start ≤ s.stop ∧
        s.stop = (get_attributes doc.text).character_count) := by
  have key : ∀ (b : GopherAttributes), ∀ s ∈ b.as_spans,
      s.start = 0 ∧ s.stop = b.character_count := by
    intro b s hs
    simp only [GopherAttributes.as_spans, List.mem_append, List.mem_map, List.mem_cons,
      List.not_mem_nil, or_false] at hs
    rcases hs with (⟨p, hp, rfl⟩ | ⟨p, hp, rfl⟩) | hrest
    · exact ⟨rfl, rfl⟩
    · exact ⟨rfl, rfl⟩
    · rcases hrest with rfl | rfl | rfl | rfl | rfl | rfl | rfl | rfl | rfl | rfl <;>
        exact ⟨rfl, rfl⟩
  refine ⟨key a, rfl, ?_⟩
  intro s hs
  have h2 := key (get_attributes doc.text) s hs
  exact ⟨h2.1, by rw [h2.1, h2.2]; exact Nat.zero_le _, h2.2⟩

/-- Witness for C9: a concrete span of a concrete record. -/
theorem gopher_C9_witness :
    (Span.mk 0 0 ("median_word_length") 0) ∈ (initAttrs []).as_spans ∧
      (Span.mk 0 0 ("median_word_length") 0).start = 0 ∧
      (Span.mk 0 0 ("median_word_length") 0).stop = (initAttrs []).character_count :=
  ⟨by simp [GopherAttributes.as_spans, initAttrs],
    (gopher_C9_span_invariant (initAttrs []) ⟨"", ""⟩).1 _
      (by simp [GopherAttributes.as_spans, initAttrs])⟩
